import Mathlib

/-!
Verification of the segmentation and splicing engine of `src/merger.py`
(`combineTalkgroup` and its helpers `datetimeFloor`, `datetimeRange`).

Modelling conventions:
* Time is measured in integer milliseconds since the epoch (`datetime.min`),
  so `datetimeFloor`/`datetimeRange` act on `Nat`.
* An audio track (`pydub.AudioSegment`) is a `List Int` of per-millisecond
  samples; `AudioSegment` slicing (`seg[a:b]`) is slicing by milliseconds,
  which we render with `List.take`/`List.drop`, and `+` is concatenation.
* The opaque codec is represented by the `audio` field of a `Clip`
  (`none` models a `CouldntDecodeError` on decode) and by an explicit
  `normFn` argument standing for `effects.normalize`.
* Filesystem effects are made explicit: `ExportEnv` describes the state of
  the exported output file as observed on disk right after `export`, and a
  `SegmentResult` records what one segment iteration wrote and deleted.
  An uncaught Python exception is an `Except.error`.
-/

namespace TrunkMerger

/-- The fixed segment width, 30 minutes in milliseconds
(`timedelta(minutes=30)`, `AudioSegment.silent(duration=30*60*1000)`). -/
def segmentWidthMs : Nat := 30 * 60 * 1000

/-- The lookback clamp, one day in milliseconds (`timedelta(days=1)`). -/
def lookbackMs : Nat := 24 * 60 * 60 * 1000

/-- Translation of `datetimeFloor(dt, delta)` from `src/merger.py`:
`dt - (dt - datetime.min) % delta`, with the epoch `datetime.min` at 0. -/
def datetimeFloor (t w : Nat) : Nat := t - t % w

/-- Translation of the generator `datetimeRange(start, end, delta)` from
`src/merger.py`: `current = start; while current < end: yield current;
current += delta`.  The loop diverges for `delta = 0`, so the guard also
requires `0 < delta` to make the translation total. -/
def datetimeRange (start finish delta : Nat) : List Nat :=
  if _h : start < finish ∧ 0 < delta then
    start :: datetimeRange (start + delta) finish delta
  else
    []
termination_by finish - start
decreasing_by omega

/-- Python's `min` over a non-empty list (`min(dates)` in
`combineTalkgroup`); the `[]` case is never reached by the caller, which
returns early when no recording files were found. -/
def minimumOf : List Nat → Nat
  | [] => 0
  | d :: ds => ds.foldl min d

/-- The segment planning part of `combineTalkgroup` (lines 234-245):
floor the oldest file date and the current time to 30-minute boundaries,
clamp the range to one day of lookback, and list the 30-minute-spaced
segment start times. -/
def planSegments (dates : List Nat) (now : Nat) : List Nat :=
  let minDate0 := datetimeFloor (minimumOf dates) segmentWidthMs
  let maxDate := datetimeFloor now segmentWidthMs
  let minDate := if lookbackMs < maxDate - minDate0 then maxDate - lookbackMs else minDate0
  datetimeRange minDate maxDate segmentWidthMs

/-- One recording file for the talkgroup: its parsed start timestamp
(milliseconds), an identifier standing for its path, and the result of
decoding it (`none` models `pydub.exceptions.CouldntDecodeError`). -/
structure Clip where
  startTime : Nat
  path : Nat
  audio : Option (List Int)
deriving DecidableEq

/-- The command-line switches consulted by `combineTalkgroup`:
`--remove`, `--keep-empty`, `--normalize`. -/
structure Flags where
  remove : Bool
  keepEmpty : Bool
  norm : Bool
deriving DecidableEq

/-- The per-segment mutable state of the clip loop in `combineTalkgroup`:
`outputRec`, `hasAudio`, `filesToDelete`. -/
structure SegState where
  track : List Int
  hasAudio : Bool
  filesToDelete : List Nat
deriving DecidableEq

/-- The splice of lines 295-297 of `src/merger.py`:
`recBefore = outputRec[:delta]; recAfter = outputRec[delta + len(rec):];
outputRec = recBefore + rec + recAfter`. -/
def splice (track clip : List Int) (delta : Nat) : List Int :=
  let recBefore := track.take delta
  let recAfter := track.drop (delta + clip.length)
  recBefore ++ clip ++ recAfter

/-- One iteration of the `for file in recFiles` loop of `combineTalkgroup`
(lines 272-306): the range test `segment < file[0] < segment + 30min`,
decode (skipping the clip on `CouldntDecodeError`), optional
normalization, offset computation `delta = file[0] - segment`, splice,
setting `hasAudio`, and marking the file for deletion when `--remove`. -/
def processClip (segment : Nat) (flags : Flags) (normFn : List Int → List Int)
    (st : SegState) (c : Clip) : SegState :=
  if segment < c.startTime ∧ c.startTime < segment + segmentWidthMs then
    match c.audio with
    | none => st
    | some decoded =>
      let clipAudio := if flags.norm then normFn decoded else decoded
      let delta := c.startTime - segment
      { track := splice st.track clipAudio delta
        hasAudio := true
        filesToDelete :=
          if flags.remove then st.filesToDelete ++ [c.path] else st.filesToDelete }
  else
    st

/-- The state of the output file on disk as observed by the code right
after `outputRec.export(...)`: whether `export` raised (`encodeOk`),
whether `os.path.exists(outputFile.name)` holds afterwards, and the size
of the written file.  The code consults only existence; `sizeAfter` is
carried so that claims about non-emptiness of the output can be stated. -/
structure ExportEnv where
  encodeOk : Bool
  existsAfter : Bool
  sizeAfter : Nat
deriving DecidableEq

/-- The inputs of one iteration of the `for segment in timeSegments` loop:
the export environment, the content already at `outputFullpath` (if the
file exists), and the segment start time. -/
structure SegInput where
  env : ExportEnv
  existing : Option (List Int)
  segment : Nat
deriving DecidableEq

/-- What one segment iteration did: whether it saved a file, the content
it exported, and the source files it deleted. -/
structure SegmentResult where
  saved : Bool
  content : List Int
  deleted : List Nat
deriving DecidableEq

/-- Lines 322-334 of `src/merger.py`: `outputRec.export(...)` (raising on
encode failure, modelled by `encodeOk = false`), then
`if os.path.exists(outputFile.name) and remove:` delete every file in
`filesToDelete`. -/
def exportAndClean (flags : Flags) (env : ExportEnv) (track : List Int)
    (toDelete : List Nat) : Except Unit SegmentResult :=
  if env.encodeOk then
    .ok { saved := true
          content := track
          deleted := if env.existsAfter && flags.remove then toDelete else [] }
  else
    .error ()

/-- Lines 260-266: open the existing output file as the base track, or
start a fresh 30-minute silent track. -/
def baseTrack (i : SegInput) : List Int :=
  match i.existing with
  | some t => t
  | none => List.replicate segmentWidthMs 0

/-- The state after running the clip loop of one segment iteration. -/
def mergedState (flags : Flags) (normFn : List Int → List Int)
    (clips : List Clip) (i : SegInput) : SegState :=
  clips.foldl (processClip i.segment flags normFn) ⟨baseTrack i, false, []⟩

/-- One full iteration of the segment loop of `combineTalkgroup`
(lines 249-334): build the base track, splice every in-range decodable
clip, then apply the empty-segment policy (lines 308-315: truncate to the
first second when `--keep-empty`, otherwise `continue` without saving),
and finally export and conditionally delete the consumed sources. -/
def processSegment (flags : Flags) (normFn : List Int → List Int)
    (clips : List Clip) (i : SegInput) : Except Unit SegmentResult :=
  let st := mergedState flags normFn clips i
  if st.hasAudio = false then
    if flags.keepEmpty then
      exportAndClean flags i.env (st.track.take 1000) st.filesToDelete
    else
      .ok { saved := false, content := [], deleted := [] }
  else
    exportAndClean flags i.env st.track st.filesToDelete

/-- The source files deleted by one segment iteration (none when the
iteration raised). -/
def deletedOf : Except Unit SegmentResult → List Nat
  | .error _ => []
  | .ok r => r.deleted

/-- The `for segment in timeSegments` loop itself: iterations run in
order; an uncaught exception (encode failure) aborts the remaining
iterations of this talkgroup.  Returns the results of the completed
iterations and whether the loop was aborted. -/
def runSegments (flags : Flags) (normFn : List Int → List Int)
    (clips : List Clip) : List SegInput → List SegmentResult × Bool
  | [] => ([], false)
  | i :: rest =>
    match processSegment flags normFn clips i with
    | .error _ => ([], true)
    | .ok r =>
      let p := runSegments flags normFn clips rest
      (r :: p.1, p.2)

/-- Modelled from the spec: the clamp of a computed clip offset into
`[0, width)` that the spec's open question asks for ("should be
explicitly clamped rather than left to slice-indexing edge effects").
The lower bound 0 is automatic for `Nat` offsets. -/
def clampOffsetSpec (offset width : Nat) : Nat := min offset (width - 1)

/-! ### Properties of `datetimeRange` -/

theorem mem_datetimeRange_aux {d : Nat} (hd : 0 < d) :
    ∀ (n s e x : Nat), e - s ≤ n →
      (x ∈ datetimeRange s e d ↔ ∃ k, x = s + k * d ∧ x < e) := by
  intro n
  induction n with
  | zero =>
    intro s e x hle
    rw [datetimeRange, dif_neg (by omega)]
    simp only [List.not_mem_nil, false_iff]
    rintro ⟨k, rfl, hlt⟩
    have hk : 0 ≤ k * d := Nat.zero_le _
    omega
  | succ n ih =>
    intro s e x hle
    rw [datetimeRange]
    by_cases hc : s < e
    · rw [dif_pos ⟨hc, hd⟩]
      simp only [List.mem_cons]
      rw [ih (s + d) e x (by omega)]
      constructor
      · rintro (rfl | ⟨k, rfl, hlt⟩)
        · exact ⟨0, by simp, hc⟩
        · exact ⟨k + 1, by ring, hlt⟩
      · rintro ⟨k, rfl, hlt⟩
        cases k with
        | zero => left; simp
        | succ k => right; exact ⟨k, by ring, hlt⟩
    · rw [dif_neg (by omega)]
      simp only [List.not_mem_nil, false_iff]
      rintro ⟨k, rfl, hlt⟩
      have hk : 0 ≤ k * d := Nat.zero_le _
      omega

theorem mem_datetimeRange {d : Nat} (hd : 0 < d) (s e x : Nat) :
    x ∈ datetimeRange s e d ↔ ∃ k, x = s + k * d ∧ x < e :=
  mem_datetimeRange_aux hd (e - s) s e x le_rfl

theorem head_datetimeRange {d : Nat} (hd : 0 < d) (s e : Nat) :
    (datetimeRange s e d).head? = if s < e then some s else none := by
  rw [datetimeRange]
  by_cases hc : s < e
  · rw [dif_pos ⟨hc, hd⟩, if_pos hc]; rfl
  · rw [dif_neg (by omega), if_neg hc]; rfl

theorem chain_datetimeRange_aux {d : Nat} (hd : 0 < d) :
    ∀ (n s e : Nat), e - s ≤ n →
      List.Chain' (fun a b => b = a + d) (datetimeRange s e d) := by
  intro n
  induction n with
  | zero =>
    intro s e hle
    rw [datetimeRange, dif_neg (by omega)]
    exact List.chain'_nil
  | succ n ih =>
    intro s e hle
    rw [datetimeRange]
    by_cases hc : s < e
    · rw [dif_pos ⟨hc, hd⟩]
      rw [List.chain'_cons']
      refine ⟨?_, ih (s + d) e (by omega)⟩
      intro y hy
      rw [head_datetimeRange hd] at hy
      by_cases hc2 : s + d < e
      · rw [if_pos hc2] at hy
        simpa using hy.symm
      · rw [if_neg hc2] at hy
        simp at hy
    · rw [dif_neg (by omega)]
      exact List.chain'_nil

theorem chain_datetimeRange {d : Nat} (hd : 0 < d) (s e : Nat) :
    List.Chain' (fun a b => b = a + d) (datetimeRange s e d) :=
  chain_datetimeRange_aux hd (e - s) s e le_rfl

/-- C4: for a non-empty set of clip timestamps and a fixed `now`, the
planner produces exactly the ascending arithmetic sequence
`minDate, minDate + width, minDate + 2*width, ...` of all starts strictly
below `maxDate`, where `minDate = floor(min clip timestamp, width)`,
`maxDate = floor(now, width)`, `floor(t, w) = t - t % w` against the
epoch, and `minDate` is raised to `maxDate - lookback` (one day) whenever
`maxDate - minDate` exceeds the lookback limit. -/
theorem C4_planner_range (dates : List Nat) (now : Nat) (_hne : dates ≠ [])
    (minDate maxDate first : Nat)
    (hmin : minDate = datetimeFloor (minimumOf dates) segmentWidthMs)
    (hmax : maxDate = datetimeFloor now segmentWidthMs)
    (hfirst : first = if lookbackMs < maxDate - minDate
        then maxDate - lookbackMs else minDate) :
    (∀ x, x ∈ planSegments dates now ↔
        ∃ k, x = first + k * segmentWidthMs ∧ x < maxDate)
    ∧ List.Chain' (fun a b => b = a + segmentWidthMs) (planSegments dates now)
    ∧ (planSegments dates now).head? = (if first < maxDate then some first else none) := by
  have hw : 0 < segmentWidthMs := by norm_num [segmentWidthMs]
  have hplan : planSegments dates now = datetimeRange first maxDate segmentWidthMs := by
    rw [planSegments, hfirst, hmin, hmax]
  refine ⟨?_, ?_, ?_⟩
  · intro x
    rw [hplan]
    exact mem_datetimeRange hw first maxDate x
  · rw [hplan]
    exact chain_datetimeRange hw first maxDate
  · rw [hplan]
    exact head_datetimeRange hw first maxDate

/-- Witness for C4 at a concrete input: clips at 1800000 ms, `now` at
5400000 ms; the planned segment 3600000 is `first + 1 * width`. -/
theorem C4_planner_range_witness :
    3600000 ∈ planSegments [1800000] 5400000 := by
  have h := C4_planner_range [1800000] 5400000 (by simp)
    (datetimeFloor (minimumOf [1800000]) segmentWidthMs)
    (datetimeFloor 5400000 segmentWidthMs)
    (datetimeFloor (minimumOf [1800000]) segmentWidthMs)
    rfl rfl (by decide)
  exact (h.1 3600000).mpr ⟨1, by decide, by decide⟩

/-! ### Properties of `splice` -/

theorem splice_length (tr r : List Int) (o : Nat) (h : o + r.length ≤ tr.length) :
    (splice tr r o).length = tr.length := by
  simp only [splice, List.length_append, List.length_take, List.length_drop]
  omega

theorem splice_getElem (tr r : List Int) (o : Nat) (h : o + r.length ≤ tr.length)
    (i : Nat) :
    (splice tr r o)[i]? =
      if i < o then tr[i]?
      else if i < o + r.length then r[i - o]? else tr[i]? := by
  have hto : (tr.take o).length = o := by
    simp only [List.length_take]; omega
  have hto2 : (tr.take o ++ r).length = o + r.length := by
    simp only [List.length_append, hto]
  simp only [splice]
  by_cases h1 : i < o
  · rw [List.getElem?_append_left (by omega : i < (tr.take o ++ r).length),
      List.getElem?_append_left (by omega : i < (tr.take o).length),
      List.getElem?_take_of_lt h1, if_pos h1]
  · by_cases h2 : i < o + r.length
    · rw [List.getElem?_append_left (by omega : i < (tr.take o ++ r).length),
        List.getElem?_append_right (by omega : (tr.take o).length ≤ i), hto,
        if_neg h1, if_pos h2]
    · rw [List.getElem?_append_right (by omega : (tr.take o ++ r).length ≤ i),
        hto2, List.getElem?_drop, if_neg h1, if_neg h2]
      congr 1
      omega

/-- C3: splicing a clip at `offset = clip.startTime - segmentStart`
replaces exactly the track's samples over `[offset, offset + clipDuration)`
with the clip's audio and leaves every sample outside that interval
unchanged (a hard positional replace); in particular the track's length is
preserved, so re-running on an existing committed segment file with one
newly-arrived in-range clip alters only that clip's interval. -/
theorem C3_splice_hard_replace (tr r : List Int) (o : Nat)
    (h : o + r.length ≤ tr.length) :
    (splice tr r o).length = tr.length
    ∧ (∀ i, i < o → (splice tr r o)[i]? = tr[i]?)
    ∧ (∀ i, o ≤ i → i < o + r.length → (splice tr r o)[i]? = r[i - o]?)
    ∧ (∀ i, o + r.length ≤ i → (splice tr r o)[i]? = tr[i]?) := by
  refine ⟨splice_length tr r o h, ?_, ?_, ?_⟩
  · intro i hi
    rw [splice_getElem tr r o h i, if_pos hi]
  · intro i hi1 hi2
    rw [splice_getElem tr r o h i, if_neg (by omega), if_pos hi2]
  · intro i hi
    rw [splice_getElem tr r o h i, if_neg (by omega), if_neg (by omega)]

/-- Witness for C3: splicing `[8, 9]` at offset 1 into `[1, 2, 3, 4]`
keeps sample 0, rewrites sample 2 to the clip's sample 1, and keeps
sample 3. -/
theorem C3_splice_hard_replace_witness :
    (splice [1, 2, 3, 4] [8, 9] 1)[0]? = some 1
    ∧ (splice [1, 2, 3, 4] [8, 9] 1)[2]? = some 9
    ∧ (splice [1, 2, 3, 4] [8, 9] 1)[3]? = some 4 := by
  have h := C3_splice_hard_replace [1, 2, 3, 4] [8, 9] 1 (by decide)
  exact ⟨(h.2.1 0 (by decide)).trans (by decide),
    (h.2.2.1 2 (by decide) (by decide)).trans (by decide),
    (h.2.2.2 3 (by decide)).trans (by decide)⟩

/-- C9 counterexample: two overlapping in-range decodable clips spliced in
the two possible orders give different final tracks, refuting "splicing
the clips into the base track in any order produces the same final
track".  The later-spliced clip owns the overlap. -/
theorem C9_counterexample :
    (List.foldl (processClip 0 ⟨false, false, false⟩ id)
        ⟨[0, 0, 0, 0], false, []⟩ [⟨1, 1, some [5, 5]⟩, ⟨2, 2, some [9, 9]⟩]).track
    ≠ (List.foldl (processClip 0 ⟨false, false, false⟩ id)
        ⟨[0, 0, 0, 0], false, []⟩ [⟨2, 2, some [9, 9]⟩, ⟨1, 1, some [5, 5]⟩]).track := by
  decide

/-- C9 amended: splices commute when the two clips' replaced intervals are
disjoint and lie inside the track; for overlapping clips the result
depends on the order (the later-spliced clip fully owns the overlap, see
the counterexample). -/
theorem C9_disjoint_splices_commute (tr r1 r2 : List Int) (o1 o2 : Nat)
    (h1 : o1 + r1.length ≤ o2) (h2 : o2 + r2.length ≤ tr.length) :
    splice (splice tr r1 o1) r2 o2 = splice (splice tr r2 o2) r1 o1 := by
  have hl1 : o1 + r1.length ≤ tr.length := by omega
  have L1 : (splice tr r1 o1).length = tr.length := splice_length tr r1 o1 hl1
  have L2 : (splice tr r2 o2).length = tr.length := splice_length tr r2 o2 h2
  apply List.ext_getElem?
  intro i
  rw [splice_getElem (splice tr r1 o1) r2 o2 (by omega) i,
    splice_getElem (splice tr r2 o2) r1 o1 (by omega) i,
    splice_getElem tr r1 o1 hl1 i, splice_getElem tr r2 o2 h2 i]
  split_ifs <;> first | rfl | omega

/-- Witness for C9's amended theorem: disjoint clips `[5]` at 0 and `[9]`
at 2 splice to the same track in either order. -/
theorem C9_disjoint_splices_commute_witness :
    splice (splice [0, 0, 0, 0] [5] 0) [9] 2
      = splice (splice [0, 0, 0, 0] [9] 2) [5] 0 :=
  C9_disjoint_splices_commute [0, 0, 0, 0] [5] [9] 0 2 (by decide) (by decide)

/-- C10 counterexample: a 1000 ms base track (a keep-empty stub) with a
2000 ms clip at offset 600 has `offset + clipDuration` exceeding the
track length, yet the resulting track (2600 ms) is NOT longer than the
fixed segment width of 1800000 ms, refuting that conjunct of the claim. -/
theorem C10_counterexample :
    (List.replicate 1000 (0 : Int)).length
        < 600 + (List.replicate 2000 (1 : Int)).length
    ∧ (splice (List.replicate 1000 0) (List.replicate 2000 1) 600).length = 2600
    ∧ ¬ segmentWidthMs
        < (splice (List.replicate 1000 0) (List.replicate 2000 1) 600).length := by
  refine ⟨?_, ?_, ?_⟩
  · simp only [List.length_replicate]
    omega
  · simp only [splice, List.length_append, List.length_take, List.length_drop,
      List.length_replicate]
    omega
  · simp only [splice, segmentWidthMs, List.length_append, List.length_take,
      List.length_drop, List.length_replicate]
    omega

/-- C10 amended: for every base track and decoded non-empty clip with
non-negative offset, the splice is total and equals
`track[0, min(offset, len)) ++ clip ++ track[offset + clipDuration, len)`;
when `offset + clipDuration` exceeds the track length the result is
longer than the base track (not necessarily longer than the segment
width), and when `offset` reaches or exceeds the track length the clip is
placed at the track's actual end. -/
theorem C10_splice_total_slicing (tr r : List Int) (o : Nat) (hr : r ≠ []) :
    splice tr r o
      = tr.take (min o tr.length) ++ r ++ tr.drop (o + r.length)
    ∧ (tr.length < o + r.length → tr.length < (splice tr r o).length)
    ∧ (tr.length ≤ o → splice tr r o = tr ++ r) := by
  refine ⟨?_, ?_, ?_⟩
  · unfold splice
    by_cases h : o ≤ tr.length
    · rw [Nat.min_eq_left h]
    · rw [Nat.min_eq_right (by omega), List.take_length,
        List.take_of_length_le (by omega)]
  · intro h
    have hrlen : 0 < r.length := List.length_pos.mpr hr
    simp only [splice, List.length_append, List.length_take, List.length_drop]
    omega
  · intro h
    unfold splice
    rw [List.take_of_length_le h, List.drop_eq_nil_of_le (by omega),
      List.append_nil]

/-- Witness for C10's amended theorem at the counterexample's numbers:
base `[1, 2]`, clip `[9]`, offset 5. -/
theorem C10_splice_total_slicing_witness :
    splice [1, 2] [9] 5 = [1, 2, 9] := by
  have h := C10_splice_total_slicing [1, 2] [9] 5 (by decide)
  exact (h.2.2 (by decide)).trans (by decide)

/-! ### Clip selection (range filter) and bucketing -/

/-- C2 counterexample: a clip whose `startTime` equals the segment start
(which is exactly `floor(t, w)`) is NOT spliced — the state is returned
unchanged and `hasAudio` stays false — because the code's range test
`segment < file[0] < segment + 30min` is strict on both ends, refuting
membership of `t = segmentStart` in the claimed half-open interval. -/
theorem C2_counterexample :
    datetimeFloor 1800000 segmentWidthMs = 1800000
    ∧ processClip 1800000 ⟨false, false, false⟩ id ⟨[], false, []⟩
        ⟨1800000, 9, some [1]⟩ = ⟨[], false, []⟩ := by
  decide

/-- C2 amended: a decodable clip is spliced into a segment if and only if
its `startTime` lies in the OPEN interval
`(segmentStart, segmentStart + width)`; for a timestamp `t` that is not a
multiple of `w`, the unique `w`-aligned segment it belongs to starts at
`floor(t, w)`, and a timestamp that is a multiple of `w` (a segment
boundary) belongs to no `w`-aligned segment at all. -/
theorem C2_open_interval_bucketing (flags : Flags) (nf : List Int → List Int)
    (s : Nat) (st : SegState) (c : Clip) (a : List Int) (ha : c.audio = some a)
    (w t : Nat) (hw : 0 < w) :
    (processClip s flags nf st c).hasAudio
      = (st.hasAudio
          || decide (s < c.startTime ∧ c.startTime < s + segmentWidthMs))
    ∧ (t % w ≠ 0 →
        (datetimeFloor t w < t ∧ t < datetimeFloor t w + w)
        ∧ ∀ u, w ∣ u → u < t → t < u + w → u = datetimeFloor t w)
    ∧ (t % w = 0 → ∀ u, w ∣ u → ¬(u < t ∧ t < u + w)) := by
  have hmodlt : t % w < w := Nat.mod_lt t hw
  have hmodle : t % w ≤ t := Nat.mod_le t w
  have hdvdf : w ∣ (t - t % w) := by
    refine ⟨t / w, ?_⟩
    have := Nat.div_add_mod t w
    omega
  refine ⟨?_, ?_, ?_⟩
  · by_cases hc : s < c.startTime ∧ c.startTime < s + segmentWidthMs
    · simp [processClip, hc, ha]
    · simp [processClip, hc, ha]
  · intro ht
    refine ⟨by unfold datetimeFloor; omega, ?_⟩
    intro u hu hu1 hu2
    unfold datetimeFloor
    rcases Nat.le_total u (t - t % w) with hle | hle
    · have hdvd : w ∣ (t - t % w - u) := Nat.dvd_sub' hdvdf hu
      have : t - t % w - u = 0 := Nat.eq_zero_of_dvd_of_lt hdvd (by omega)
      omega
    · have hdvd : w ∣ (u - (t - t % w)) := Nat.dvd_sub' hu hdvdf
      have : u - (t - t % w) = 0 := Nat.eq_zero_of_dvd_of_lt hdvd (by omega)
      omega
  · intro ht u hu
    rintro ⟨h1, h2⟩
    have hdvdt : w ∣ t := Nat.dvd_of_mod_eq_zero ht
    have hdvd : w ∣ (t - u) := Nat.dvd_sub' hdvdt hu
    have : t - u = 0 := Nat.eq_zero_of_dvd_of_lt hdvd (by omega)
    omega

/-- Witness for C2's amended theorem: an in-range clip (offset 1 ms)
flips `hasAudio`. -/
theorem C2_open_interval_bucketing_witness :
    (processClip 0 ⟨false, false, false⟩ id ⟨[0, 0, 0], false, []⟩
      ⟨1, 4, some [7]⟩).hasAudio = true := by
  have h := C2_open_interval_bucketing ⟨false, false, false⟩ id 0
    ⟨[0, 0, 0], false, []⟩ ⟨1, 4, some [7]⟩ [7] rfl 10 3 (by norm_num)
  exact h.1.trans (by decide)

/-- C8: a clip whose decode fails (`CouldntDecodeError`) is skipped
without being consumed: the per-clip step leaves the whole state (track,
`hasAudio`, deletion list) unchanged, and the clip loop over any file
list containing it behaves exactly as the loop without it, so the clip's
file is never put on the deletion list and remains for a future run. -/
theorem C8_decode_failure_skipped (s : Nat) (flags : Flags)
    (nf : List Int → List Int) (c : Clip) (h : c.audio = none) :
    (∀ st, processClip s flags nf st c = st)
    ∧ ∀ (pre post : List Clip) (st0 : SegState),
        List.foldl (processClip s flags nf) st0 (pre ++ c :: post)
          = List.foldl (processClip s flags nf) st0 (pre ++ post) := by
  have h1 : ∀ st, processClip s flags nf st c = st := by
    intro st
    unfold processClip
    rw [h]
    simp
  refine ⟨h1, ?_⟩
  intro pre post st0
  rw [List.foldl_append, List.foldl_append, List.foldl_cons, h1]

/-- Witness for C8: an undecodable clip in the middle of a file list
changes nothing. -/
theorem C8_decode_failure_skipped_witness :
    processClip 0 ⟨true, false, false⟩ id ⟨[0, 0], false, []⟩ ⟨1, 3, none⟩
      = ⟨[0, 0], false, []⟩
    ∧ List.foldl (processClip 0 ⟨true, false, false⟩ id) ⟨[0, 0], false, []⟩
        ([⟨1, 1, some [5]⟩] ++ ⟨1, 3, none⟩ :: [])
      = List.foldl (processClip 0 ⟨true, false, false⟩ id) ⟨[0, 0], false, []⟩
        ([⟨1, 1, some [5]⟩] ++ []) := by
  have h := C8_decode_failure_skipped 0 ⟨true, false, false⟩ id ⟨1, 3, none⟩ rfl
  exact ⟨h.1 _, h.2 [⟨1, 1, some [5]⟩] [] _⟩

/-! ### Segment-level commit, cleanup and error propagation -/

theorem processClip_hasAudio_mono (s : Nat) (flags : Flags)
    (nf : List Int → List Int) (st : SegState) (c : Clip)
    (h : st.hasAudio = true) :
    (processClip s flags nf st c).hasAudio = true := by
  unfold processClip
  by_cases hc : s < c.startTime ∧ c.startTime < s + segmentWidthMs
  · rw [if_pos hc]
    rcases ha : c.audio with _ | a
    · exact h
    · rfl
  · rw [if_neg hc]
    exact h

theorem processClip_eq_of_hasAudio_false (s : Nat) (flags : Flags)
    (nf : List Int → List Int) (st : SegState) (c : Clip)
    (h : (processClip s flags nf st c).hasAudio = false) :
    processClip s flags nf st c = st := by
  unfold processClip at h ⊢
  by_cases hc : s < c.startTime ∧ c.startTime < s + segmentWidthMs
  · rw [if_pos hc] at h ⊢
    revert h
    cases c.audio with
    | none => intro _; rfl
    | some a => intro h; simp at h
  · rw [if_neg hc]

theorem foldl_hasAudio_mono (s : Nat) (flags : Flags)
    (nf : List Int → List Int) (l : List Clip) :
    ∀ st : SegState, st.hasAudio = true →
      (List.foldl (processClip s flags nf) st l).hasAudio = true := by
  induction l with
  | nil => intro st h; exact h
  | cons c l ih =>
    intro st h
    rw [List.foldl_cons]
    exact ih _ (processClip_hasAudio_mono s flags nf st c h)

theorem foldl_eq_of_hasAudio_false (s : Nat) (flags : Flags)
    (nf : List Int → List Int) (l : List Clip) :
    ∀ st : SegState,
      (List.foldl (processClip s flags nf) st l).hasAudio = false →
      List.foldl (processClip s flags nf) st l = st := by
  induction l with
  | nil => intro st _; rfl
  | cons c l ih =>
    intro st h
    rw [List.foldl_cons] at h ⊢
    have h1 : (processClip s flags nf st c).hasAudio = false := by
      rcases hB : (processClip s flags nf st c).hasAudio with _ | _
      · rfl
      · rw [foldl_hasAudio_mono s flags nf l _ hB] at h
        simp at h
    have h2 : processClip s flags nf st c = st :=
      processClip_eq_of_hasAudio_false s flags nf st c h1
    rw [h2] at h ⊢
    exact ih st h

theorem deletedOf_exportAndClean (flags : Flags) (env : ExportEnv)
    (track : List Int) (toDelete : List Nat)
    (h : deletedOf (exportAndClean flags env track toDelete) ≠ []) :
    env.encodeOk = true ∧ env.existsAfter = true ∧ flags.remove = true := by
  unfold exportAndClean at h
  rcases henc : env.encodeOk with _ | _
  · rw [henc] at h
    simp [deletedOf] at h
  · rw [henc] at h
    simp only [if_pos rfl, deletedOf] at h
    rcases hcond : env.existsAfter && flags.remove with _ | _
    · rw [hcond] at h
      simp at h
    · rcases Bool.and_eq_true_iff.mp hcond with ⟨h1, h2⟩
      exact ⟨rfl, h1, h2⟩

/-- C1 counterexample: with `--remove` on, a consumed clip (path 7) is
deleted even though the exported output file has size 0 — the code checks
only `os.path.exists`, never that the file is non-empty — refuting the
claim that deletion requires the output to be verified non-empty. -/
theorem C1_counterexample :
    deletedOf (processSegment ⟨true, false, false⟩ id [⟨5, 7, some [9]⟩]
      ⟨⟨true, true, 0⟩, some [0, 0, 0], 0⟩) = [7]
    ∧ (⟨true, true, 0⟩ : ExportEnv).sizeAfter = 0 := by
  decide

/-- C1 amended: a consumed source clip is deleted only when the segment's
export succeeded (no encode exception), the target output file exists
post-export, and `--remove` is on; existence is the only verification —
non-emptiness of the output is not checked.  Contrapositively, if export
raises or the existence check fails, none of the segment's consumed clips
are deleted. -/
theorem C1_deletion_needs_export_and_existence (flags : Flags)
    (nf : List Int → List Int) (clips : List Clip) (i : SegInput)
    (h : deletedOf (processSegment flags nf clips i) ≠ []) :
    i.env.encodeOk = true ∧ i.env.existsAfter = true ∧ flags.remove = true := by
  simp only [processSegment] at h
  rcases hA : (mergedState flags nf clips i).hasAudio with _ | _
  · rw [hA, if_pos rfl] at h
    rcases hK : flags.keepEmpty with _ | _
    · rw [hK, if_neg (by simp)] at h
      exact absurd rfl h
    · rw [hK, if_pos rfl] at h
      exact deletedOf_exportAndClean flags i.env _ _ h
  · rw [hA, if_neg (by simp)] at h
    exact deletedOf_exportAndClean flags i.env _ _ h

/-- Witness for C1's amended theorem: a segment that did delete its
consumed clip indeed had a successful export, an existing output file,
and `--remove` on. -/
theorem C1_deletion_needs_export_and_existence_witness :
    (⟨true, true, 3⟩ : ExportEnv).encodeOk = true
    ∧ (⟨true, true, 3⟩ : ExportEnv).existsAfter = true
    ∧ (⟨true, false, false⟩ : Flags).remove = true :=
  C1_deletion_needs_export_and_existence ⟨true, false, false⟩ id
    [⟨5, 7, some [9]⟩] ⟨⟨true, true, 3⟩, some [0, 0, 0], 0⟩ (by decide)

/-- C5 counterexample: a talkgroup with two segments where the first
segment's export raises an encode error.  Alone, the second segment is
processed fine (it completes with a result), but after the first
segment's failure the loop aborts: no result for the second segment is
ever produced, refuting "processing continues with the remaining segments
of the same talkgroup". -/
theorem C5_counterexample :
    processSegment ⟨true, false, false⟩ id [⟨1, 1, some [9]⟩]
        ⟨⟨true, true, 5⟩, some [0, 0], 1800000⟩
      = .ok ⟨false, [], []⟩
    ∧ runSegments ⟨true, false, false⟩ id [⟨1, 1, some [9]⟩]
        [⟨⟨false, true, 5⟩, some [0, 0, 0], 0⟩,
         ⟨⟨true, true, 5⟩, some [0, 0], 1800000⟩]
      = ([], true) :=
  ⟨rfl, rfl⟩

/-- C5 amended: if exporting one segment's merged track fails, none of
that segment's consumed source clips are deleted, but the failure is NOT
isolated to that segment: the uncaught exception aborts the talkgroup's
segment loop, so no remaining segment of the same talkgroup is processed
(and consequently nothing at all is deleted in this run of the loop). -/
theorem C5_encode_failure_aborts_talkgroup (flags : Flags)
    (nf : List Int → List Int) (clips : List Clip) (i : SegInput)
    (rest : List SegInput)
    (h : processSegment flags nf clips i = .error ()) :
    runSegments flags nf clips (i :: rest) = ([], true) := by
  rw [runSegments, h]

/-- Witness for C5's amended theorem: the failing first segment of the
counterexample aborts the two-segment loop. -/
theorem C5_encode_failure_aborts_talkgroup_witness :
    runSegments ⟨true, false, false⟩ id [⟨1, 1, some [9]⟩]
        [⟨⟨false, true, 5⟩, some [0, 0, 0], 0⟩,
         ⟨⟨true, true, 5⟩, some [0, 0], 1800000⟩]
      = ([], true) :=
  C5_encode_failure_aborts_talkgroup ⟨true, false, false⟩ id
    [⟨1, 1, some [9]⟩] ⟨⟨false, true, 5⟩, some [0, 0, 0], 0⟩
    [⟨⟨true, true, 5⟩, some [0, 0], 1800000⟩] rfl

/-- C6: for a qualifying clip (one passing the range test), the computed
offset cannot be negative and always lies in `[0, width)`, so the clamp
into `[0, width)` asked for by the spec is the identity on every
reachable offset — in particular for offsets exceeding the track length —
and the merger's splice at the raw offset coincides with the splice at
the clamped offset. -/
theorem C6_clamp_is_identity (track clipAudio : List Int) (s t : Nat)
    (h1 : s < t) (h2 : t < s + segmentWidthMs)
    (_h3 : track.length < t - s) :
    clampOffsetSpec (t - s) segmentWidthMs = t - s
    ∧ splice track clipAudio (clampOffsetSpec (t - s) segmentWidthMs)
      = splice track clipAudio (t - s) := by
  have he : clampOffsetSpec (t - s) segmentWidthMs = t - s := by
    unfold clampOffsetSpec segmentWidthMs
    unfold segmentWidthMs at h2
    omega
  exact ⟨he, by rw [he]⟩

/-- Witness for C6: a clip at offset 5 into a 2 ms track (offset exceeds
the track length). -/
theorem C6_clamp_is_identity_witness :
    clampOffsetSpec (15 - 10) segmentWidthMs = 15 - 10
    ∧ splice [1, 2] [9] (clampOffsetSpec (15 - 10) segmentWidthMs)
      = splice [1, 2] [9] (15 - 10) :=
  C6_clamp_is_identity [1, 2] [9] 10 15 (by decide) (by decide) (by decide)

/-- C7 counterexample: a segment with no qualifying clips whose base
track was loaded from an existing output file with non-silent samples
(value 7): with `--keep-empty` on, its first second (here the whole
2 ms file) is exported as-is — non-silent audio, not a silence stub —
refuting "exported as a short silence stub". -/
theorem C7_counterexample :
    processSegment ⟨false, true, false⟩ id []
        ⟨⟨true, true, 5⟩, some [7, 7], 0⟩
      = .ok ⟨true, [7, 7], []⟩
    ∧ ([7, 7] : List Int) ≠ List.replicate 2 0 :=
  ⟨rfl, by decide⟩

/-- C7 amended: a segment into which no clip was spliced (`hasAudio`
false) is, with keep-empty off, neither exported nor committed and
deletes nothing; with keep-empty on, the base track truncated to its
first 1000 ms is exported (with no deletions) — a silence stub exactly
when the base track was freshly created, and the first second of the
pre-existing file when one was loaded. -/
theorem C7_empty_segment_policy (flags : Flags) (nf : List Int → List Int)
    (clips : List Clip) (i : SegInput)
    (hNo : (mergedState flags nf clips i).hasAudio = false) :
    (flags.keepEmpty = false →
      processSegment flags nf clips i = .ok ⟨false, [], []⟩)
    ∧ (flags.keepEmpty = true → i.env.encodeOk = false →
      processSegment flags nf clips i = .error ())
    ∧ (flags.keepEmpty = true → i.env.encodeOk = true →
      processSegment flags nf clips i
        = .ok ⟨true, (baseTrack i).take 1000, []⟩)
    ∧ (i.existing = none → (baseTrack i).take 1000 = List.replicate 1000 0) := by
  have hst : mergedState flags nf clips i = ⟨baseTrack i, false, []⟩ :=
    foldl_eq_of_hasAudio_false i.segment flags nf clips _ hNo
  refine ⟨?_, ?_, ?_, ?_⟩
  · intro hK
    simp [processSegment, hst, hK]
  · intro hK henc
    simp [processSegment, hst, hK, exportAndClean, henc]
  · intro hK henc
    simp [processSegment, hst, hK, exportAndClean, henc]
  · intro he
    simp only [baseTrack, he, List.take_replicate]
    norm_num [segmentWidthMs]

/-- Witness for C7's amended theorem: no clips, keep-empty on, a loaded
2-sample base; the exported content is that base truncated. -/
theorem C7_empty_segment_policy_witness :
    processSegment ⟨false, true, false⟩ id [] ⟨⟨true, true, 0⟩, some [5, 5], 0⟩
      = .ok ⟨true, [5, 5], []⟩ := by
  have h := C7_empty_segment_policy ⟨false, true, false⟩ id []
    ⟨⟨true, true, 0⟩, some [5, 5], 0⟩ (by decide)
  exact (h.2.2.1 rfl rfl).trans rfl

end TrunkMerger
